import Mathlib

/-!
Verification of the data-retrieval-and-normalization pipeline of the
`m2-1-pandas` notebook (`src/02_data_sources.ipynb`).

The notebook's pipeline is: fetch a CSV over HTTP (`requests.get`), parse it
into a date-indexed table (`pd.read_csv(url, index_col=0, parse_dates=True)`),
optionally reshape a long-format indicator response into a wide table
(`wb.download(...).stack().unstack(0)`), slice by date range
(`data['2006':'2012']`) and plot (`.plot(...)`).

The parser, fetcher, reshape and presenter bodies live in external libraries
(pandas, requests, pandas_datareader, matplotlib), not in the repository, so
the components below are modelled from the spec's component contracts
(spec.md §3, §4.1–§4.3, §6, §7), faithful to the algorithm the spec lays out.
-/

set_option autoImplicit false

namespace DataSources

universe u

variable {α : Type u}

/-- Modelled from the spec: the error taxonomy of §7 ("NetworkError,
DecodeError, ParseError (malformed date or numeric token, with row context),
EmptyResponseError, EmptySelectionError"); the library calls in the notebook
surface these as exceptions. -/
inductive PipelineError where
  | networkError : PipelineError
  | decodeError : PipelineError
  | parseError (row col : Nat) : PipelineError
  | emptyResponseError : PipelineError
  | emptySelectionError : PipelineError
  deriving DecidableEq, Repr

/-- Split a character list on a separator character; the delimited-text
splitting of spec §4.2 step 2 (rows on line boundaries) and of the
comma-separated fields of §6. -/
def splitOnChar (sep : Char) : List Char → List (List Char)
  | [] => [[]]
  | c :: cs =>
    match splitOnChar sep cs with
    | [] => [[]]
    | g :: gs => if c = sep then [] :: g :: gs else (c :: g) :: gs

/-- The numeric value of a decimal digit character, `none` on a non-digit. -/
def digitVal (c : Char) : Option Nat :=
  if '0' ≤ c ∧ c ≤ '9' then some (c.toNat - '0'.toNat) else none

def digitsToNatAux (acc : Nat) : List Char → Option Nat
  | [] => some acc
  | c :: cs =>
    match digitVal c with
    | some d => digitsToNatAux (10 * acc + d) cs
    | none => none

/-- A non-empty all-digit token read as a natural number. -/
def digitsToNat (cs : List Char) : Option Nat :=
  if cs.isEmpty then none else digitsToNatAux 0 cs

/-- Modelled from the spec: parse a `YYYY-MM-DD` date token (§6) into a single
comparable day-granularity key `y*10000 + m*100 + d`; `none` if the token is
not a calendar date (§4.2 step 3). -/
def parseDate (cs : List Char) : Option Nat :=
  match splitOnChar '-' cs with
  | [y, m, d] =>
    match digitsToNat y, digitsToNat m, digitsToNat d with
    | some yv, some mv, some dv =>
      if 1 ≤ mv ∧ mv ≤ 12 ∧ 1 ≤ dv ∧ dv ≤ 31 then
        some (yv * 10000 + mv * 100 + dv)
      else none
    | _, _, _ => none
  | _ => none

/-- An exactly-represented decimal number: mantissa and power-of-ten scale,
standing for `mantissa / 10 ^ scale`. -/
abbrev Dec := Int × Nat

/-- The rational a parsed decimal token denotes. -/
def decToRat (p : Dec) : ℚ := (p.1 : ℚ) / 10 ^ p.2

def parseDecimalNonneg (cs : List Char) : Option Dec :=
  match splitOnChar '.' cs with
  | [w] => (digitsToNat w).map (fun n => ((n : Int), 0))
  | [w, f] =>
    match digitsToNat w, digitsToNat f with
    | some wn, some fn => some (((wn * 10 ^ f.length + fn : Nat) : Int), f.length)
    | _, _ => none
  | _ => none

/-- Modelled from the spec: parse a value token as a decimal number
(§4.2 step 4, §6 "remaining columns are decimal numbers"). -/
def parseDecimal (cs : List Char) : Option Dec :=
  match cs with
  | '-' :: rest => (parseDecimalNonneg rest).map (fun p => (-p.1, p.2))
  | _ => parseDecimalNonneg cs

/-- Modelled from the spec: one value-column token (§4.2 step 4): an empty
token becomes the explicit missing marker `none`, a numeric token its parsed
value, and a non-numeric non-empty token fails (`none` at the outer level). -/
def parseValueToken (cs : List Char) : Option (Option Dec) :=
  if cs.isEmpty then some none else (parseDecimal cs).map some

/-- Parse the value columns of one data row; `row`/`col` locate a failing
token for the `ParseError` context (§4.2 step 4, §7). -/
def parseVals (row col : Nat) : List (List Char) → Except PipelineError (List (Option Dec))
  | [] => .ok []
  | t :: ts =>
    match parseValueToken t with
    | none => .error (.parseError row col)
    | some v =>
      match parseVals row (col + 1) ts with
      | .error e => .error e
      | .ok vs => .ok (v :: vs)

/-- Modelled from the spec: parse one data row: the first field is the date
key (column 0), the remaining fields are values (§4.2 steps 3–4). -/
def parseRow (row : Nat) (toks : List (List Char)) :
    Except PipelineError (Nat × List (Option Dec)) :=
  match toks with
  | [] => .error (.parseError row 0)
  | d :: vals =>
    match parseDate d with
    | none => .error (.parseError row 0)
    | some key =>
      match parseVals row 1 vals with
      | .error e => .error e
      | .ok vs => .ok (key, vs)

/-- Parse all data rows (row numbers count from 1; the header is row 0). -/
def parseRows (row : Nat) : List (List Char) → Except PipelineError (List (Nat × List (Option Dec)))
  | [] => .ok []
  | l :: ls =>
    match parseRow row (splitOnChar ',' l) with
    | .error e => .error e
    | .ok p =>
      match parseRows (row + 1) ls with
      | .error e => .error e
      | .ok ps => .ok (p :: ps)

/-- Keys of a date-keyed table. -/
def keysOf (t : List (Nat × α)) : List Nat := t.map Prod.fst

/-- Modelled from the spec: insert one row into the date-keyed table keeping
keys unique and chronologically ordered (§3 invariants (a),(b)); an equal key
overwrites (§4.2 step 5, last-write-wins). -/
def insertLWW (k : Nat) (v : α) : List (Nat × α) → List (Nat × α)
  | [] => [(k, v)]
  | (k', v') :: t =>
    if k < k' then (k, v) :: (k', v') :: t
    else if k = k' then (k, v) :: t
    else (k', v') :: insertLWW k v t

/-- Modelled from the spec: assemble parsed rows into the table keyed by the
parsed date, later rows overwriting earlier ones on a duplicate key
(§4.2 step 5). -/
def assemble (rows : List (Nat × α)) : List (Nat × α) :=
  rows.foldl (fun acc p => insertLWW p.1 p.2 acc) []

/-- Look a key up in a table. -/
def lookupT (k : Nat) : List (Nat × α) → Option α
  | [] => none
  | p :: t => if p.1 = k then some p.2 else lookupT k t

/-- The value of the last row bearing key `k`, if any. -/
def lastVal (k : Nat) : List (Nat × α) → Option α
  | [] => none
  | p :: t =>
    match lastVal k t with
    | some v => some v
    | none => if p.1 = k then some p.2 else none

/-- The number of distinct keys among `rows` that are not already in `seen`. -/
def numDistinct : List (Nat × α) → List Nat → Nat
  | [], _ => 0
  | p :: t, seen =>
    if p.1 ∈ seen then numDistinct t seen else numDistinct t (p.1 :: seen) + 1

/-- The non-blank lines of the raw text (split on line boundaries,
§4.2 step 2). -/
def linesOf (s : String) : List (List Char) :=
  (splitOnChar '\n' s.data).filter (fun l => !l.isEmpty)

/-- Modelled from the spec: parse a list of lines, the first being the header
row; zero data rows after the header is `EmptyResponseError` (§4.2, §7). -/
def parseTable (ls : List (List Char)) :
    Except PipelineError (List (Nat × List (Option Dec))) :=
  match ls with
  | [] => .error .emptyResponseError
  | [_] => .error .emptyResponseError
  | _ :: l :: rest =>
    match parseRows 1 (l :: rest) with
    | .error e => .error e
    | .ok ps => .ok (assemble ps)

/-- Modelled from the spec: the whole Parser/Normalizer on a decoded text
body — what `pd.read_csv(url, index_col=0, parse_dates=True)` performs in the
notebook. -/
def parseCSV (s : String) : Except PipelineError (List (Nat × List (Option Dec))) :=
  parseTable (linesOf s)

/-- Modelled from the spec: the Presenter/caller date-range slice
(`data['2006':'2012']` in the notebook): keep exactly the entries whose key
lies in the inclusive range `[s, e]`, preserving iteration order (§4.3). -/
def sliceRange (t : List (Nat × α)) (s e : Nat) : List (Nat × α) :=
  t.filter (fun p => decide (s ≤ p.1) && decide (p.1 ≤ e))

/-- The smallest date key of a table (`0` on the empty table). -/
def minKey : List (Nat × α) → Nat
  | [] => 0
  | p :: t => t.foldl (fun m q => Nat.min m q.1) p.1

/-- The largest date key of a table (`0` on the empty table). -/
def maxKey : List (Nat × α) → Nat
  | [] => 0
  | p :: t => t.foldl (fun m q => Nat.max m q.1) p.1

def firstSeenAux {β : Type u} [DecidableEq β] : List β → List β → List β
  | [], _ => []
  | a :: l, seen =>
    if a ∈ seen then firstSeenAux l seen else a :: firstSeenAux l (a :: seen)

/-- The distinct elements of a list in first-seen order (§4.2 step 6: "ties in
ordering are resolved by first-seen order"). -/
def firstSeen {β : Type u} [DecidableEq β] (l : List β) : List β :=
  firstSeenAux l []

/-- One row of the "long" indicator response of §6: region identifier,
date-or-year, value. -/
abbrev LongRow := String × Nat × ℚ

/-- The distinct region identifiers of a long response, first-seen order. -/
def regionsOf (rows : List LongRow) : List String :=
  firstSeen (rows.map (fun p => p.1))

/-- The distinct date keys of a long response, first-seen order. -/
def datesOf (rows : List LongRow) : List Nat :=
  firstSeen (rows.map (fun p => p.2.1))

/-- The observed value for region `r` at date `d` in the long response, or
`none` when that (region, date) pair has no row. -/
def cellValue (rows : List LongRow) (d : Nat) (r : String) : Option ℚ :=
  (rows.find? (fun p => p.1 == r && p.2.1 == d)).map (fun p => p.2.2)

/-- Modelled from the spec: the long-to-wide pivot (§4.2 step 6, the
`.stack().unstack(0)` reshape of the notebook): group rows by date and create
one field per distinct region identifier, missing marker for a region absent
at that date. -/
def pivotTable (rows : List LongRow) : List (Nat × List (String × Option ℚ)) :=
  (datesOf rows).map (fun d => (d, (regionsOf rows).map (fun r => (r, cellValue rows d r))))

/-- The field stored for region `r` on the wide row of date `d`: `none` when
the date or the field is absent, `some v` (with `v` possibly the missing
marker) when present. -/
def fieldOf (t : List (Nat × List (String × Option ℚ))) (d : Nat) (r : String) :
    Option (Option ℚ) :=
  (t.find? (fun p => p.1 == d)).bind
    (fun p => (p.2.find? (fun q => q.1 == r)).map (fun q => q.2))

/-- Modelled from the spec: the possible outcomes of the single blocking
transport request of §4.1 (`requests.get` in the notebook). -/
inductive TransportOutcome where
  | dnsFailure : TransportOutcome
  | connectionRefused : TransportOutcome
  | timeout : TransportOutcome
  | httpResponse (status : Nat) (body : String) : TransportOutcome
  deriving DecidableEq, Repr

/-- The raw response of §3: the body plus a status indicator. -/
structure RawResponse where
  status : Nat
  body : String
  deriving DecidableEq, Repr

/-- `true` exactly on the transport failures §4.1 lists: DNS failure,
connection refused, timeout, and a non-2xx HTTP status. -/
def transportFails : TransportOutcome → Bool
  | .httpResponse st _ => !(decide (200 ≤ st) && decide (st < 300))
  | _ => true

/-- Modelled from the spec: the Fetcher contract of §4.1 — a single attempt
returning a `RawResponse` on success and `NetworkError` on any transport
failure; no retry. -/
def fetch : TransportOutcome → Except PipelineError RawResponse
  | .httpResponse st b =>
    if 200 ≤ st ∧ st < 300 then .ok ⟨st, b⟩ else .error .networkError
  | _ => .error .networkError

/-- Modelled from the spec: the whole fetch-then-parse pipeline run (§2): the
Parser/Normalizer consumes the Fetcher's raw response. -/
def runPipeline (o : TransportOutcome) :
    Except PipelineError (List (Nat × List (Option Dec))) :=
  match fetch o with
  | .error e => .error e
  | .ok r => parseCSV r.body

/-- A sequence of independent pipeline runs, one per input; the code keeps no
state between runs (§5). -/
def runSeq (inputs : List String) : List (Except PipelineError (List (Nat × List (Option Dec)))) :=
  inputs.map parseCSV

/-- The display options of the Presenter contract (§4.3): title, axis labels,
legend flag — the notebook's `title=...`, `set_xlabel`, `set_ylabel`,
`legend=False`. -/
structure PlotOptions where
  title : String
  xlabel : String
  ylabel : String
  legend : Bool

/-- The chart artifact of §4.3: display options plus the plotted points, one
line per field, missing values left as gaps. -/
structure Chart (β : Type u) where
  title : String
  xlabel : String
  ylabel : String
  legend : Bool
  points : List (Nat × β)

/-- Modelled from the spec: the Presenter (§4.3) — builds a chart from the
(possibly pre-sliced) table, fails with `EmptySelectionError` on an empty
selection, and returns the input table unchanged (no mutation). -/
def present (t : List (Nat × α)) (opts : PlotOptions) :
    Except PipelineError (Chart α) × List (Nat × α) :=
  (if t.isEmpty then .error .emptySelectionError
   else .ok ⟨opts.title, opts.xlabel, opts.ylabel, opts.legend, t⟩, t)

/-- The single-series table the notebook's CSV path produces: date key to
value columns (here one `VALUE` column), §3. -/
abbrev TimeSeriesTable := List (Nat × List (Option Dec))

/-! ### Properties of table assembly (last-write-wins) -/

/-- Chronological-order invariant (§3 invariant (b)) on a table's keys. -/
def SortedT (t : List (Nat × α)) : Prop :=
  List.Pairwise (fun p q => p.1 < q.1) t

instance decSortedT (t : List (Nat × α)) : Decidable (SortedT t) :=
  inferInstanceAs (Decidable (List.Pairwise (fun (p q : Nat × α) => p.1 < q.1) t))

@[simp] theorem keysOf_nil : keysOf ([] : List (Nat × α)) = [] := rfl

@[simp] theorem keysOf_cons (p : Nat × α) (t : List (Nat × α)) :
    keysOf (p :: t) = p.1 :: keysOf t := rfl

theorem fst_mem_keysOf {t : List (Nat × α)} {q : Nat × α} (h : q ∈ t) :
    q.1 ∈ keysOf t := List.mem_map_of_mem Prod.fst h

theorem exists_of_mem_keysOf {t : List (Nat × α)} {k : Nat} (h : k ∈ keysOf t) :
    ∃ q ∈ t, q.1 = k := List.mem_map.mp h

theorem mem_keysOf_insertLWW (k k' : Nat) (v : α) (t : List (Nat × α)) :
    k' ∈ keysOf (insertLWW k v t) ↔ k' = k ∨ k' ∈ keysOf t := by
  induction t with
  | nil => simp [insertLWW]
  | cons p t ih =>
    rw [insertLWW]
    by_cases h1 : k < p.1
    · rw [if_pos h1]
      simp only [keysOf_cons, List.mem_cons]
      try tauto
    · rw [if_neg h1]
      by_cases h2 : k = p.1
      · rw [if_pos h2]
        simp only [keysOf_cons, List.mem_cons, ← h2]
        try tauto
      · rw [if_neg h2]
        simp only [keysOf_cons, List.mem_cons, ih]
        try tauto

theorem sortedT_insertLWW (k : Nat) (v : α) (t : List (Nat × α)) (h : SortedT t) :
    SortedT (insertLWW k v t) := by
  induction t with
  | nil => simp [insertLWW, SortedT]
  | cons p t ih =>
    rw [SortedT, List.pairwise_cons] at h
    rw [insertLWW]
    by_cases h1 : k < p.1
    · rw [if_pos h1, SortedT, List.pairwise_cons]
      refine ⟨?_, List.Pairwise.cons h.1 h.2⟩
      intro q hq
      rcases List.mem_cons.mp hq with hq | hq
      · exact hq ▸ h1
      · exact Nat.lt_trans h1 (h.1 q hq)
    · rw [if_neg h1]
      by_cases h2 : k = p.1
      · rw [if_pos h2, SortedT, List.pairwise_cons]
        exact ⟨fun q hq => h2 ▸ h.1 q hq, h.2⟩
      · rw [if_neg h2, SortedT, List.pairwise_cons]
        have hk : p.1 < k := by omega
        refine ⟨?_, ih h.2⟩
        intro q hq
        have hq1 := (mem_keysOf_insertLWW k q.1 v t).mp (fst_mem_keysOf hq)
        rcases hq1 with hq1 | hq1
        · omega
        · rcases exists_of_mem_keysOf hq1 with ⟨q', hq', he⟩
          have := h.1 q' hq'
          omega

theorem length_insertLWW (k : Nat) (v : α) (t : List (Nat × α)) (h : SortedT t) :
    (insertLWW k v t).length = if k ∈ keysOf t then t.length else t.length + 1 := by
  induction t with
  | nil => simp [insertLWW]
  | cons p t ih =>
    rw [SortedT, List.pairwise_cons] at h
    rw [insertLWW]
    by_cases h1 : k < p.1
    · have hk : k ∉ keysOf (p :: t) := by
        simp only [keysOf_cons, List.mem_cons]
        rintro (he | he)
        · omega
        · rcases exists_of_mem_keysOf he with ⟨q, hq, hqe⟩
          have := h.1 q hq
          omega
      rw [if_pos h1, if_neg hk]
      simp
    · rw [if_neg h1]
      by_cases h2 : k = p.1
      · have hk : k ∈ keysOf (p :: t) := by simp [h2]
        rw [if_pos h2, if_pos hk]
        simp
      · rw [if_neg h2, List.length_cons, List.length_cons, ih h.2]
        by_cases hk : k ∈ keysOf t
        · have hk' : k ∈ keysOf (p :: t) := by simp [hk]
          rw [if_pos hk, if_pos hk']
        · have hk' : k ∉ keysOf (p :: t) := by
            simp only [keysOf_cons, List.mem_cons]
            tauto
          rw [if_neg hk, if_neg hk']

theorem lookupT_insertLWW (k k' : Nat) (v : α) (t : List (Nat × α)) :
    lookupT k' (insertLWW k v t) = if k' = k then some v else lookupT k' t := by
  induction t with
  | nil =>
    by_cases h : k' = k
    · subst h
      simp [insertLWW, lookupT]
    · have h' : k ≠ k' := Ne.symm h
      simp [insertLWW, lookupT, h, h']
  | cons p t ih =>
    rw [insertLWW]
    by_cases h1 : k < p.1
    · by_cases h : k' = k
      · rw [if_pos h1, if_pos h, lookupT, if_pos h.symm]
      · rw [if_pos h1, if_neg h, lookupT, if_neg (fun he : k = k' => h he.symm)]
    · rw [if_neg h1]
      by_cases h2 : k = p.1
      · by_cases h : k' = k
        · rw [if_pos h2, if_pos h, lookupT, if_pos h.symm]
        · rw [if_pos h2, if_neg h, lookupT, if_neg (fun he : k = k' => h he.symm),
            lookupT, if_neg (fun he : p.1 = k' => h (h2 ▸ he.symm))]
      · rw [if_neg h2, lookupT, lookupT, ih]
        by_cases hp : p.1 = k'
        · have hne : ¬ k' = k := by omega
          rw [if_pos hp, if_neg hne, if_pos hp]
        · rw [if_neg hp, if_neg hp]

theorem numDistinct_congr (rows : List (Nat × α)) :
    ∀ (s₁ s₂ : List Nat), (∀ x, x ∈ s₁ ↔ x ∈ s₂) →
      numDistinct rows s₁ = numDistinct rows s₂ := by
  induction rows with
  | nil => intro s₁ s₂ _; rfl
  | cons p t ih =>
    intro s₁ s₂ h
    by_cases h1 : p.1 ∈ s₁
    · rw [numDistinct, if_pos h1, numDistinct, if_pos ((h p.1).mp h1)]
      exact ih s₁ s₂ h
    · rw [numDistinct, if_neg h1, numDistinct, if_neg (fun hc => h1 ((h p.1).mpr hc))]
      have : ∀ x, x ∈ p.1 :: s₁ ↔ x ∈ p.1 :: s₂ := by
        intro x; simp only [List.mem_cons]; rw [h x]
      rw [ih _ _ this]

theorem length_foldl_insert (rows : List (Nat × α)) :
    ∀ acc : List (Nat × α), SortedT acc →
      (rows.foldl (fun a p => insertLWW p.1 p.2 a) acc).length =
        acc.length + numDistinct rows (keysOf acc) := by
  induction rows with
  | nil => intro acc _; simp [numDistinct]
  | cons p t ih =>
    intro acc hacc
    rw [List.foldl_cons, ih _ (sortedT_insertLWW _ _ _ hacc),
      length_insertLWW _ _ _ hacc]
    by_cases hk : p.1 ∈ keysOf acc
    · rw [if_pos hk, numDistinct, if_pos hk]
      have : ∀ x, x ∈ keysOf (insertLWW p.1 p.2 acc) ↔ x ∈ keysOf acc := by
        intro x
        rw [mem_keysOf_insertLWW]
        constructor
        · rintro (rfl | hx) <;> [exact hk; exact hx]
        · exact Or.inr
      rw [numDistinct_congr _ _ _ this]
    · rw [if_neg hk, numDistinct, if_neg hk]
      have : ∀ x, x ∈ keysOf (insertLWW p.1 p.2 acc) ↔ x ∈ p.1 :: keysOf acc := by
        intro x
        rw [mem_keysOf_insertLWW, List.mem_cons]
      rw [numDistinct_congr _ _ _ this]
      omega

theorem length_assemble (rows : List (Nat × α)) :
    (assemble rows).length = numDistinct rows [] := by
  have := length_foldl_insert rows [] (by simp [SortedT])
  simpa [assemble, keysOf] using this

theorem lookupT_foldl_insert (rows : List (Nat × α)) :
    ∀ (acc : List (Nat × α)) (k : Nat),
      lookupT k (rows.foldl (fun a p => insertLWW p.1 p.2 a) acc) =
        match lastVal k rows with
        | some v => some v
        | none => lookupT k acc := by
  induction rows with
  | nil => intro acc k; simp [lastVal]
  | cons p t ih =>
    intro acc k
    rw [List.foldl_cons, ih, lastVal]
    cases hlast : lastVal k t with
    | some v => simp
    | none =>
      simp only [lookupT_insertLWW]
      by_cases h : p.1 = k
      · rw [if_pos h, if_pos h.symm]
      · rw [if_neg h, if_neg (fun he : k = p.1 => h he.symm)]

theorem lookupT_assemble (rows : List (Nat × α)) (k : Nat) :
    lookupT k (assemble rows) = lastVal k rows := by
  rw [assemble, lookupT_foldl_insert rows [] k]
  cases lastVal k rows <;> simp [lookupT]

theorem numDistinct_le (rows : List (Nat × α)) :
    ∀ seen : List Nat, numDistinct rows seen ≤ rows.length := by
  induction rows with
  | nil => intro seen; simp [numDistinct]
  | cons p t ih =>
    intro seen
    rw [numDistinct]
    by_cases h : p.1 ∈ seen
    · rw [if_pos h]
      have := ih seen
      simp only [List.length_cons]
      omega
    · rw [if_neg h]
      have := ih (p.1 :: seen)
      simp only [List.length_cons]
      omega

theorem numDistinct_eq_of_nodup (rows : List (Nat × α)) :
    ∀ seen : List Nat, (keysOf rows).Nodup → (∀ k ∈ keysOf rows, k ∉ seen) →
      numDistinct rows seen = rows.length := by
  induction rows with
  | nil => intro seen _ _; rfl
  | cons p t ih =>
    intro seen hnd hdisj
    simp only [keysOf_cons, List.nodup_cons] at hnd
    have hp : p.1 ∉ seen := hdisj p.1 (by simp)
    rw [numDistinct, if_neg hp, List.length_cons, ih _ hnd.2]
    intro k hk
    simp only [List.mem_cons]
    rintro (rfl | hks)
    · exact hnd.1 hk
    · exact hdisj k (by simp [hk]) hks

theorem numDistinct_lt_of_hit (rows : List (Nat × α)) :
    ∀ seen : List Nat, (∃ k ∈ keysOf rows, k ∈ seen) →
      numDistinct rows seen < rows.length := by
  induction rows with
  | nil => rintro seen ⟨k, hk, _⟩; simp [keysOf] at hk
  | cons p t ih =>
    rintro seen ⟨k, hk, hks⟩
    rw [numDistinct]
    by_cases h : p.1 ∈ seen
    · rw [if_pos h]
      have := numDistinct_le t seen
      simp only [List.length_cons]
      omega
    · rw [if_neg h]
      simp only [keysOf_cons, List.mem_cons] at hk
      rcases hk with rfl | hk
      · exact absurd hks h
      · have := ih (p.1 :: seen) ⟨k, hk, by simp [hks]⟩
        simp only [List.length_cons]
        omega

theorem numDistinct_lt_of_dup (rows : List (Nat × α)) :
    ∀ seen : List Nat, ¬ (keysOf rows).Nodup →
      numDistinct rows seen < rows.length := by
  induction rows with
  | nil => intro seen h; exact absurd List.nodup_nil h
  | cons p t ih =>
    intro seen h
    simp only [keysOf_cons, List.nodup_cons, not_and_or] at h
    rw [numDistinct]
    by_cases hs : p.1 ∈ seen
    · rw [if_pos hs]
      have := numDistinct_le t seen
      simp only [List.length_cons]
      omega
    · rw [if_neg hs]
      simp only [List.length_cons]
      rcases h with h | h
      · rw [not_not] at h
        have := numDistinct_lt_of_hit t (p.1 :: seen) ⟨p.1, h, by simp⟩
        omega
      · have := ih (p.1 :: seen) h
        omega

/-! ### Properties of date-range slicing -/

theorem mem_sliceRange (t : List (Nat × α)) (s e : Nat) (p : Nat × α) :
    p ∈ sliceRange t s e ↔ p ∈ t ∧ s ≤ p.1 ∧ p.1 ≤ e := by
  simp [sliceRange, List.mem_filter]

theorem sortedT_sliceRange (t : List (Nat × α)) (s e : Nat) (h : SortedT t) :
    SortedT (sliceRange t s e) :=
  List.Pairwise.sublist (List.filter_sublist t) h

theorem foldl_min_le_init (l : List (Nat × α)) :
    ∀ i : Nat, l.foldl (fun m q => Nat.min m q.1) i ≤ i := by
  induction l with
  | nil => intro i; exact Nat.le_refl i
  | cons q l ih =>
    intro i
    rw [List.foldl_cons]
    exact Nat.le_trans (ih _) (Nat.min_le_left _ _)

theorem foldl_min_le_mem (l : List (Nat × α)) :
    ∀ (i : Nat) (p : Nat × α), p ∈ l → l.foldl (fun m q => Nat.min m q.1) i ≤ p.1 := by
  induction l with
  | nil => intro i p hp; exact absurd hp (List.not_mem_nil p)
  | cons q l ih =>
    intro i p hp
    rw [List.foldl_cons]
    rcases List.mem_cons.mp hp with rfl | hp
    · exact Nat.le_trans (foldl_min_le_init l _) (Nat.min_le_right _ _)
    · exact ih _ p hp

theorem minKey_le {t : List (Nat × α)} {p : Nat × α} (hp : p ∈ t) :
    minKey t ≤ p.1 := by
  cases t with
  | nil => exact absurd hp (List.not_mem_nil p)
  | cons q t =>
    rw [minKey]
    rcases List.mem_cons.mp hp with rfl | hp
    · exact foldl_min_le_init t _
    · exact foldl_min_le_mem t _ p hp

theorem init_le_foldl_max (l : List (Nat × α)) :
    ∀ i : Nat, i ≤ l.foldl (fun m q => Nat.max m q.1) i := by
  induction l with
  | nil => intro i; exact Nat.le_refl i
  | cons q l ih =>
    intro i
    rw [List.foldl_cons]
    exact Nat.le_trans (Nat.le_max_left _ _) (ih _)

theorem mem_le_foldl_max (l : List (Nat × α)) :
    ∀ (i : Nat) (p : Nat × α), p ∈ l → p.1 ≤ l.foldl (fun m q => Nat.max m q.1) i := by
  induction l with
  | nil => intro i p hp; exact absurd hp (List.not_mem_nil p)
  | cons q l ih =>
    intro i p hp
    rw [List.foldl_cons]
    rcases List.mem_cons.mp hp with rfl | hp
    · exact Nat.le_trans (Nat.le_max_right _ _) (init_le_foldl_max l _)
    · exact ih _ p hp

theorem le_maxKey {t : List (Nat × α)} {p : Nat × α} (hp : p ∈ t) :
    p.1 ≤ maxKey t := by
  cases t with
  | nil => exact absurd hp (List.not_mem_nil p)
  | cons q t =>
    rw [maxKey]
    rcases List.mem_cons.mp hp with rfl | hp
    · exact init_le_foldl_max t _
    · exact mem_le_foldl_max t _ p hp

theorem sliceRange_full (t : List (Nat × α)) :
    sliceRange t (minKey t) (maxKey t) = t := by
  rw [sliceRange, List.filter_eq_self]
  intro p hp
  simp [minKey_le hp, le_maxKey hp]

/-! ### Properties of the long-to-wide pivot -/

theorem mem_firstSeenAux {β : Type u} [DecidableEq β] (l : List β) :
    ∀ (seen : List β) (x : β), x ∈ firstSeenAux l seen ↔ x ∈ l ∧ x ∉ seen := by
  induction l with
  | nil => intro seen x; simp [firstSeenAux]
  | cons a l ih =>
    intro seen x
    rw [firstSeenAux]
    by_cases h : a ∈ seen
    · rw [if_pos h, ih]
      simp only [List.mem_cons]
      constructor
      · rintro ⟨hx, hs⟩; exact ⟨Or.inr hx, hs⟩
      · rintro ⟨hx | hx, hs⟩
        · exact absurd (hx ▸ h) hs
        · exact ⟨hx, hs⟩
    · rw [if_neg h]
      simp only [List.mem_cons, ih, List.mem_cons]
      constructor
      · rintro (rfl | ⟨hx, hs⟩)
        · exact ⟨Or.inl rfl, h⟩
        · exact ⟨Or.inr hx, fun hxs => hs (Or.inr hxs)⟩
      · rintro ⟨hx | hx, hs⟩
        · exact Or.inl hx
        · by_cases hxa : x = a
          · exact Or.inl hxa
          · exact Or.inr ⟨hx, fun hxs => by
              rcases hxs with h' | h'
              · exact hxa h'
              · exact hs h'⟩

theorem mem_firstSeen {β : Type u} [DecidableEq β] (l : List β) (x : β) :
    x ∈ firstSeen l ↔ x ∈ l := by
  rw [firstSeen, mem_firstSeenAux]
  simp

theorem find?_map_keyed {β γ : Type u} [BEq β] [LawfulBEq β]
    (ds : List β) (g : β → γ) (d : β) (hd : d ∈ ds) :
    (ds.map (fun x => (x, g x))).find? (fun p => p.1 == d) = some (d, g d) := by
  induction ds with
  | nil => exact absurd hd (List.not_mem_nil d)
  | cons a ds ih =>
    rw [List.map_cons, List.find?_cons]
    by_cases h : a = d
    · subst h
      simp
    · have hb : ((a, g a).1 == d) = false := by
        simp [h]
      rw [hb]
      rcases List.mem_cons.mp hd with rfl | hd
      · exact absurd rfl h
      · exact ih hd

theorem fieldOf_pivotTable (rows : List LongRow) (d : Nat) (r : String)
    (hd : d ∈ datesOf rows) (hr : r ∈ regionsOf rows) :
    fieldOf (pivotTable rows) d r = some (cellValue rows d r) := by
  rw [fieldOf, pivotTable,
    find?_map_keyed (datesOf rows) (fun d => (regionsOf rows).map (fun r => (r, cellValue rows d r))) d hd]
  rw [Option.some_bind]
  show Option.map (fun q => q.2)
      (((regionsOf rows).map (fun r => (r, cellValue rows d r))).find? (fun q => q.1 == r)) =
    some (cellValue rows d r)
  rw [find?_map_keyed (regionsOf rows) (fun r => cellValue rows d r) r hr]
  rfl

theorem cellValue_eq_none_iff (rows : List LongRow) (d : Nat) (r : String) :
    cellValue rows d r = none ↔ ∀ p ∈ rows, ¬(p.1 = r ∧ p.2.1 = d) := by
  rw [cellValue, Option.map_eq_none', List.find?_eq_none]
  constructor
  · intro h p hp hc
    exact h p hp (by simp [hc.1, hc.2])
  · intro h p hp hb
    simp only [Bool.and_eq_true, beq_iff_eq] at hb
    exact h p hp hb

theorem cellValue_eq_some (rows : List LongRow) (d : Nat) (r : String) (v : ℚ)
    (h : cellValue rows d r = some v) : (r, d, v) ∈ rows := by
  rw [cellValue] at h
  cases hf : rows.find? (fun p => p.1 == r && p.2.1 == d) with
  | none => rw [hf] at h; simp at h
  | some p =>
    rw [hf] at h
    simp only [Option.map_some'] at h
    have hp := List.find?_some hf
    simp only [Bool.and_eq_true, beq_iff_eq] at hp
    have hmem := List.mem_of_find?_eq_some hf
    have : p = (r, d, v) := by
      rcases p with ⟨pr, pd, pv⟩
      simp only at hp
      simp only [Option.some.injEq] at h
      simp [hp.1, hp.2, ← h]
    exact this ▸ hmem

/-! ### Properties of value-column parsing and of the end-to-end parse -/

/-- A value token that fails step 4 of §4.2: non-empty and non-numeric. -/
def badToken (cs : List Char) : Bool :=
  !cs.isEmpty && (parseDecimal cs).isNone

/-- The index of the first bad value token of a row, if any. -/
def firstBadIdx : List (List Char) → Option Nat
  | [] => none
  | t :: ts => if badToken t then some 0 else (firstBadIdx ts).map (fun j => j + 1)

theorem parseValueToken_of_not_bad {cs : List Char} (h : badToken cs = false) :
    ∃ v, parseValueToken cs = some v ∧ (cs = [] → v = none) := by
  rw [badToken, Bool.and_eq_false_iff] at h
  by_cases he : cs.isEmpty
  · refine ⟨none, ?_, fun _ => rfl⟩
    rw [parseValueToken, if_pos he]
  · rcases h with h | h
    · rw [Bool.not_eq_false'] at h
      exact absurd h he
    · rw [Option.isNone_eq_false_iff, Option.isSome_iff_exists] at h
      rcases h with ⟨d, hd⟩
      refine ⟨some d, ?_, fun hc => absurd (hc ▸ rfl) he⟩
      rw [parseValueToken, if_neg he, hd, Option.map_some']

theorem parseVals_of_firstBadIdx_some (toks : List (List Char)) :
    ∀ (row col j : Nat), firstBadIdx toks = some j →
      parseVals row col toks = .error (.parseError row (col + j)) ∧
        ∃ t, toks[j]? = some t ∧ t ≠ [] ∧ parseDecimal t = none := by
  induction toks with
  | nil => intro row col j h; exact absurd h (by rw [firstBadIdx]; simp)
  | cons t ts ih =>
    intro row col j h
    rw [firstBadIdx] at h
    by_cases hb : badToken t
    · rw [if_pos hb] at h
      injection h with h
      subst h
      rw [badToken, Bool.and_eq_true, Bool.not_eq_true', Option.isNone_iff_eq_none] at hb
      have hne : t ≠ [] := fun hc => by
        rw [hc] at hb
        simp at hb
      refine ⟨?_, t, by simp, hne, hb.2⟩
      have htok : parseValueToken t = none := by
        rw [parseValueToken, if_neg (by rw [hb.1]; exact Bool.false_ne_true), hb.2,
          Option.map_none']
      rw [parseVals, htok]
      rfl
    · rw [if_neg hb] at h
      cases hts : firstBadIdx ts with
      | none => rw [hts] at h; simp at h
      | some j' =>
        rw [hts, Option.map_some', Option.some.injEq] at h
        subst h
        rcases parseValueToken_of_not_bad (Bool.not_eq_true _ ▸ hb) with ⟨v, hv, _⟩
        rcases ih row (col + 1) j' hts with ⟨herr, t', ht', hne, hdec⟩
        constructor
        · rw [parseVals, hv, herr]
          have : col + 1 + j' = col + (j' + 1) := by omega
          rw [this]
        · exact ⟨t', by simpa using ht', hne, hdec⟩

theorem parseVals_of_firstBadIdx_none (toks : List (List Char)) :
    ∀ (row col : Nat), firstBadIdx toks = none →
      ∃ vs, parseVals row col toks = .ok vs ∧ vs.length = toks.length ∧
        ∀ j : Nat, toks[j]? = some [] → vs[j]? = some none := by
  induction toks with
  | nil =>
    intro row col _
    exact ⟨[], rfl, rfl, fun j h => by simp at h⟩
  | cons t ts ih =>
    intro row col h
    rw [firstBadIdx] at h
    by_cases hb : badToken t
    · rw [if_pos hb] at h; simp at h
    · rw [if_neg hb, Option.map_eq_none'] at h
      rcases parseValueToken_of_not_bad (Bool.not_eq_true _ ▸ hb) with ⟨v, hv, hemp⟩
      rcases ih row (col + 1) h with ⟨vs, hok, hlen, hmiss⟩
      refine ⟨v :: vs, ?_, by simp [hlen], ?_⟩
      · rw [parseVals, hv, hok]
      · intro j hj
        cases j with
        | zero =>
          have ht0 : t = [] := by simpa using hj
          simpa using hemp ht0
        | succ j' =>
          have hj' : ts[j']? = some [] := by simpa using hj
          simpa using hmiss j' hj'

theorem parseRows_length (ls : List (List Char)) :
    ∀ (row : Nat) (ps : List (Nat × List (Option Dec))),
      parseRows row ls = .ok ps → ps.length = ls.length := by
  induction ls with
  | nil =>
    intro row ps h
    rw [parseRows] at h
    injection h with h
    rw [← h]
    rfl
  | cons l ls ih =>
    intro row ps h
    rw [parseRows] at h
    cases hr : parseRow row (splitOnChar ',' l) with
    | error e => rw [hr] at h; exact absurd h (by simp)
    | ok p =>
      rw [hr] at h
      cases hrs : parseRows (row + 1) ls with
      | error e => rw [hrs] at h; exact absurd h (by simp)
      | ok ps' =>
        rw [hrs] at h
        injection h with h
        rw [← h, List.length_cons, List.length_cons, ih _ _ hrs]

theorem numDistinct_pos (p : Nat × α) (t : List (Nat × α)) :
    0 < numDistinct (p :: t) [] := by
  rw [numDistinct, if_neg (List.not_mem_nil p.1)]
  omega

theorem assemble_ne_nil {rows : List (Nat × α)} (h : rows ≠ []) :
    assemble rows ≠ [] := by
  cases rows with
  | nil => exact absurd rfl h
  | cons p t =>
    have hlen := length_assemble (p :: t)
    have hpos := numDistinct_pos p t
    intro hc
    rw [hc] at hlen
    simp at hlen
    omega

theorem parseTable_ok_ne_nil (ls : List (List Char)) (t : List (Nat × List (Option Dec)))
    (h : parseTable ls = .ok t) : t ≠ [] := by
  match ls with
  | [] => exact absurd h (by rw [parseTable]; simp)
  | [l] => exact absurd h (by rw [parseTable]; simp)
  | hdr :: l :: ls =>
    rw [parseTable] at h
    cases hr : parseRows 1 (l :: ls) with
    | error e => rw [hr] at h; exact absurd h (by simp)
    | ok ps =>
      rw [hr] at h
      injection h with h
      have hlen := parseRows_length _ _ _ hr
      have hne : ps ≠ [] := by
        intro hc
        rw [hc] at hlen
        simp at hlen
      exact h ▸ assemble_ne_nil hne

/-! ### The claims -/

/-- A small sorted sample table used to instantiate the slicing theorems. -/
def sampleTable : TimeSeriesTable :=
  [(1, []), (3, [some ((2 : Int), 0)]), (7, [])]

/-- The long-format indicator response of spec §8 Scenario C. -/
def exLongRows : List LongRow :=
  [("US", 2005, (621 / 10 : ℚ)), ("AU", 2005, (143 / 10 : ℚ)), ("US", 2006, (63 : ℚ))]

/-- Claim C1: parsing the two-row FRED-style input `DATE,VALUE\n1948-01-01,3.4\n
1948-02-01,3.8\n` yields a table with exactly two entries, mapping 1948-01-01
to 3.4 and 1948-02-01 to 3.8. -/
theorem claim_C1 :
    parseCSV "DATE,VALUE\n1948-01-01,3.4\n1948-02-01,3.8\n" =
      .ok [(19480101, [some ((34 : Int), 1)]), (19480201, [some ((38 : Int), 1)])] ∧
    decToRat ((34 : Int), 1) = 34 / 10 ∧ decToRat ((38 : Int), 1) = 38 / 10 := by
  refine ⟨rfl, ?_, ?_⟩ <;> norm_num [decToRat]

/-- Claim C2: assembling N parsed rows yields a table with one entry per
distinct date key — exactly N entries when all keys are distinct, strictly
fewer when keys repeat — and the value stored under any key is the one from
the last row bearing it (last-write-wins); the end-to-end parse of an input
with a header line and N data lines goes through exactly this assembly. -/
theorem claim_C2 :
    ∀ rows : List (Nat × List (Option Dec)),
      (assemble rows).length = numDistinct rows [] ∧
      ((keysOf rows).Nodup → (assemble rows).length = rows.length) ∧
      (¬ (keysOf rows).Nodup → (assemble rows).length < rows.length) ∧
      (∀ k : Nat, lookupT k (assemble rows) = lastVal k rows) ∧
      (∀ (s : String) (hdr l : List Char) (ls : List (List Char))
          (ps : List (Nat × List (Option Dec))),
        linesOf s = hdr :: l :: ls → parseRows 1 (l :: ls) = .ok ps →
          parseCSV s = .ok (assemble ps) ∧ ps.length = (l :: ls).length) := by
  intro rows
  refine ⟨length_assemble rows, ?_, ?_, lookupT_assemble rows, ?_⟩
  · intro h
    rw [length_assemble]
    exact numDistinct_eq_of_nodup rows [] h (fun k _ => List.not_mem_nil k)
  · intro h
    rw [length_assemble]
    exact numDistinct_lt_of_dup rows [] h
  · intro s hdr l ls ps hlines hps
    constructor
    · rw [parseCSV, hlines, parseTable, hps]
    · exact parseRows_length _ _ _ hps

theorem claim_C2_witness :
    (assemble [(5, [some ((1 : Int), 0)]), (5, [some ((2 : Int), 0)])]).length < 2 ∧
    lookupT 5 (assemble [(5, [some ((1 : Int), 0)]), (5, [some ((2 : Int), 0)])]) =
      lastVal 5 [(5, [some ((1 : Int), 0)]), (5, [some ((2 : Int), 0)])] ∧
    parseCSV "DATE,VALUE\n2000-01-01,1\n" = .ok (assemble [(20000101, [some ((1 : Int), 0)])]) :=
  ⟨(claim_C2 [(5, [some ((1 : Int), 0)]), (5, [some ((2 : Int), 0)])]).2.2.1 (by decide),
   (claim_C2 [(5, [some ((1 : Int), 0)]), (5, [some ((2 : Int), 0)])]).2.2.2.1 5,
   ((claim_C2 []).2.2.2.2 "DATE,VALUE\n2000-01-01,1\n"
      ['D', 'A', 'T', 'E', ',', 'V', 'A', 'L', 'U', 'E']
      ['2', '0', '0', '0', '-', '0', '1', '-', '0', '1', ',', '1'] []
      [(20000101, [some ((1 : Int), 0)])] rfl rfl).1⟩

/-- Claim C3: the long-to-wide pivot groups rows by date with one field per
distinct region; Scenario C's rows {(US,2005,62.1), (AU,2005,14.3),
(US,2006,63.0)} pivot to {2005 → {US: 62.1, AU: 14.3}, 2006 → {US: 63.0,
AU: missing}}; in general a present (date, region) pair surfaces as its
observed value and an absent one as the explicit missing marker. -/
theorem claim_C3 :
    pivotTable exLongRows =
      [(2005, [("US", some (621 / 10 : ℚ)), ("AU", some (143 / 10 : ℚ))]),
       (2006, [("US", some (63 : ℚ)), ("AU", none)])] ∧
    (∀ (rows : List LongRow) (d : Nat) (r : String),
      d ∈ datesOf rows → r ∈ regionsOf rows →
        fieldOf (pivotTable rows) d r = some (cellValue rows d r)) ∧
    (∀ (rows : List LongRow) (d : Nat) (r : String),
      cellValue rows d r = none ↔ ∀ p ∈ rows, ¬(p.1 = r ∧ p.2.1 = d)) ∧
    (∀ (rows : List LongRow) (d : Nat) (r : String) (v : ℚ),
      cellValue rows d r = some v → (r, d, v) ∈ rows) :=
  ⟨rfl,
   fun rows d r hd hr => fieldOf_pivotTable rows d r hd hr,
   fun rows d r => cellValue_eq_none_iff rows d r,
   fun rows d r v h => cellValue_eq_some rows d r v h⟩

theorem claim_C3_witness :
    fieldOf (pivotTable exLongRows) 2006 "AU" = some (cellValue exLongRows 2006 "AU") ∧
    ("US", 2005, (621 / 10 : ℚ)) ∈ exLongRows :=
  ⟨claim_C3.2.1 exLongRows 2006 "AU" (by decide) (by decide),
   claim_C3.2.2.2 exLongRows 2005 "US" (621 / 10 : ℚ) rfl⟩

/-- Claim C4: slicing a chronologically-ordered table by an inclusive range
`[s, e]` keeps exactly the entries whose key lies in the range, boundaries
included, and the result is still in ascending key order. -/
theorem claim_C4 :
    ∀ (t : TimeSeriesTable) (s e : Nat),
      (∀ p, p ∈ sliceRange t s e ↔ p ∈ t ∧ s ≤ p.1 ∧ p.1 ≤ e) ∧
      (SortedT t → SortedT (sliceRange t s e)) :=
  fun t s e => ⟨mem_sliceRange t s e, sortedT_sliceRange t s e⟩

theorem claim_C4_witness :
    ((3, [some ((2 : Int), 0)]) ∈ sliceRange sampleTable 2 5) ∧
    SortedT (sliceRange sampleTable 2 5) :=
  ⟨((claim_C4 sampleTable 2 5).1 (3, [some ((2 : Int), 0)])).mpr
      (by refine ⟨by decide, by decide, by decide⟩),
   (claim_C4 sampleTable 2 5).2 (by decide)⟩

/-- Claim C5: slicing a non-empty table by the inclusive range from its
minimum date key to its maximum date key returns the table unchanged. -/
theorem claim_C5 :
    ∀ t : TimeSeriesTable, t ≠ [] → sliceRange t (minKey t) (maxKey t) = t :=
  fun t _ => sliceRange_full t

theorem claim_C5_witness :
    sliceRange sampleTable (minKey sampleTable) (maxKey sampleTable) = sampleTable :=
  claim_C5 sampleTable (by decide)

/-- Claim C6: a non-numeric, non-empty value token makes the parser fail with
a `ParseError` carrying the offending row and column (witnessed by the first
bad token of the row), an empty token becomes the explicit missing marker
`none` — never zero — and no fallback value is substituted; concretely, an
`N/A` value token in row 1, column 1 of a CSV yields `ParseError 1 1`. -/
theorem claim_C6 :
    parseCSV "DATE,VALUE\n1948-01-01,N/A\n" = .error (.parseError 1 1) ∧
    ∀ (row col : Nat) (toks : List (List Char)),
      (∀ j : Nat, firstBadIdx toks = some j →
        parseVals row col toks = .error (.parseError row (col + j)) ∧
          ∃ t, toks[j]? = some t ∧ t ≠ [] ∧ parseDecimal t = none) ∧
      (firstBadIdx toks = none →
        ∃ vs, parseVals row col toks = .ok vs ∧ vs.length = toks.length ∧
          ∀ j : Nat, toks[j]? = some [] → vs[j]? = some none) :=
  ⟨rfl, fun row col toks =>
    ⟨fun j h => parseVals_of_firstBadIdx_some toks row col j h,
     fun h => parseVals_of_firstBadIdx_none toks row col h⟩⟩

theorem claim_C6_witness :
    parseVals 1 1 [['N', '/', 'A']] = .error (.parseError 1 1) :=
  ((claim_C6.2 1 1 [['N', '/', 'A']]).1 0 rfl).1

/-- Claim C7: a header-only input (zero data rows) fails with
`EmptyResponseError`, and a successful parse never returns an empty table. -/
theorem claim_C7 :
    (∀ hdr : List Char, parseTable [hdr] = .error .emptyResponseError) ∧
    (∀ (s : String) (t : List (Nat × List (Option Dec))), parseCSV s = .ok t → t ≠ []) ∧
    parseCSV "DATE,VALUE\n" = .error .emptyResponseError :=
  ⟨fun _ => rfl, fun _ t h => parseTable_ok_ne_nil _ t h, rfl⟩

theorem claim_C7_witness :
    parseTable [['D', 'A', 'T', 'E']] = .error .emptyResponseError ∧
    [(19480101, [some ((34 : Int), 1)])] ≠ ([] : List (Nat × List (Option Dec))) :=
  ⟨claim_C7.1 ['D', 'A', 'T', 'E'],
   claim_C7.2.1 "DATE,VALUE\n1948-01-01,3.4\n" [(19480101, [some ((34 : Int), 1)])] rfl⟩

/-- Claim C8: every transport failure — DNS failure, connection refused,
timeout, non-2xx HTTP status — makes the single-attempt Fetcher fail with
`NetworkError`, and the pipeline then produces no table. -/
theorem claim_C8 :
    ∀ o : TransportOutcome, transportFails o = true →
      fetch o = .error .networkError ∧ runPipeline o = .error .networkError := by
  intro o h
  cases o with
  | dnsFailure => exact ⟨rfl, rfl⟩
  | connectionRefused => exact ⟨rfl, rfl⟩
  | timeout => exact ⟨rfl, rfl⟩
  | httpResponse st b =>
    have hc : ¬ (200 ≤ st ∧ st < 300) := by
      intro hc
      simp [transportFails, hc.1, hc.2] at h
    have hf : fetch (.httpResponse st b) = .error .networkError := by
      rw [fetch, if_neg hc]
    exact ⟨hf, by rw [runPipeline, hf]⟩

theorem claim_C8_witness :
    fetch .connectionRefused = .error .networkError ∧
    runPipeline .connectionRefused = .error .networkError :=
  claim_C8 .connectionRefused rfl

/-- Claim C9: slicing and presenting do not mutate the input table: the
Presenter hands the table back unchanged, the slice is a (new) sub-table of
the original, and a successfully built chart carries exactly the entries it
was given. -/
theorem claim_C9 :
    ∀ (t : TimeSeriesTable) (opts : PlotOptions) (s e : Nat),
      (present t opts).2 = t ∧
      (present (sliceRange t s e) opts).2 = sliceRange t s e ∧
      (∀ p, p ∈ sliceRange t s e → p ∈ t) ∧
      (∀ c, (present t opts).1 = .ok c → c.points = t) := by
  intro t opts s e
  refine ⟨rfl, rfl, fun p hp => ((mem_sliceRange t s e p).mp hp).1, fun c hc => ?_⟩
  by_cases ht : t.isEmpty = true
  · simp only [present, ht, if_pos] at hc
    exact absurd hc (by simp)
  · simp only [present, ht] at hc
    rw [if_neg (by simp [ht])] at hc
    injection hc with hc
    rw [← hc]

theorem claim_C9_witness :
    (present sampleTable ⟨"US Unemployment Rate", "year", "%", false⟩).2 = sampleTable ∧
    (3, [some ((2 : Int), 0)]) ∈ sampleTable ∧
    Chart.points ⟨"US Unemployment Rate", "year", "%", false, sampleTable⟩ = sampleTable :=
  ⟨(claim_C9 sampleTable ⟨"US Unemployment Rate", "year", "%", false⟩ 2 5).1,
   (claim_C9 sampleTable ⟨"US Unemployment Rate", "year", "%", false⟩ 2 5).2.2.1
      (3, [some ((2 : Int), 0)]) (by decide),
   (claim_C9 sampleTable ⟨"US Unemployment Rate", "year", "%", false⟩ 2 5).2.2.2
      ⟨"US Unemployment Rate", "year", "%", false, sampleTable⟩ rfl⟩

/-- Claim C10: the parse-and-pivot pipeline is deterministic and keeps no
state between runs: each run of a sequence depends only on its own input, and
re-running the parser or the pivot on the same input gives the same table. -/
theorem claim_C10 :
    (∀ (inputs : List String) (i : Nat), (runSeq inputs)[i]? = (inputs[i]?).map parseCSV) ∧
    (∀ s : String, parseCSV s = parseCSV s) ∧
    (∀ rows : List LongRow, pivotTable rows = pivotTable rows) :=
  ⟨fun inputs i => by rw [runSeq, List.getElem?_map],
   fun _ => rfl, fun _ => rfl⟩

end DataSources
